import Mathlib

/-!
Shallow embedding of the stanza `tokenize` package: the four incremental
boundary-detection strategies (`LineStartSplitFunc`, `LineEndSplitFunc`,
`NewlineSplitFunc`, `NoSplitFunc`), the whitespace trim functions, and the
`MultilineConfig.getSplitFunc` builder.

Modelling conventions:
* A Go byte slice is `Option (List Nat)`: `none` is the nil slice, `some l`
  is a non-nil slice with contents `l` (a nil and an empty slice are
  distinguishable in Go via `token == nil`, and the tokenizer's contract
  distinguishes them: a nil token means "no token").  Buffers presented by
  the caller are modelled as plain `List Nat` (non-nil slices).
* Go `bytes.TrimLeft`/`bytes.TrimRight` return nil when every byte is
  trimmed (the stdlib's documented historical behaviour); the package's own
  wrappers normalise that nil back to an empty non-nil slice.
* A compiled regular expression is abstracted as a `Matcher`: the
  `FindIndex` capability `List Nat → Option (Nat × Nat)` returning the
  leftmost match as a half-open interval.  `findLiteral pat` instantiates
  it for a literal pattern, which is the exact behaviour of the compiled
  regexes appearing in the concrete claims (`";"`, `"X"`).
* The character-encoding codec (external collaborator, golang.org/x/text)
  is abstracted by the byte sequences it resolves for newline and carriage
  return, which is all the tokenizer reads from it.
-/

/-- A Go byte slice: `none` is nil, `some l` a non-nil slice. -/
abbrev GoBytes := Option (List Nat)

/-- Result of one `bufio.SplitFunc` call: `(advance, token, err)`. -/
structure SplitResult where
  advance : Nat
  token : GoBytes
  err : Option String
deriving DecidableEq

/-- The `FindIndex` capability of a compiled regular expression. -/
abbrev Matcher := List Nat → Option (Nat × Nat)

/-- The type of the package's `trimFunc`. -/
abbrev TrimFunc := GoBytes → GoBytes

/-- A compiled boundary strategy, `func(data []byte, atEOF bool) ...`. -/
abbrev SplitFn := List Nat → Bool → SplitResult

/-- The whitespace cutset `"\r\n\t "` used by the trim functions. -/
def isWhitespaceByte (c : Nat) : Bool :=
  c == 13 || c == 10 || c == 9 || c == 32

/-- Go `bytes.TrimLeft(s, "\r\n\t ")`: strips leading whitespace bytes and
returns nil when everything was stripped from a non-empty slice. -/
def bytesTrimLeft (s : GoBytes) : GoBytes :=
  match s with
  | none => none
  | some [] => some []
  | some (a :: t) =>
    let r := (a :: t).dropWhile isWhitespaceByte
    if r.isEmpty then none else some r

/-- Go `bytes.TrimRight(s, "\r\n\t ")`: strips trailing whitespace bytes and
returns nil when everything was stripped from a non-empty slice. -/
def bytesTrimRight (s : GoBytes) : GoBytes :=
  match s with
  | none => none
  | some [] => some []
  | some (a :: t) =>
    let r := ((a :: t).reverse.dropWhile isWhitespaceByte).reverse
    if r.isEmpty then none else some r

/-- Go `bytes.TrimSuffix(l, suf)`: removes one trailing occurrence of `suf`
if present. -/
def bytesTrimSuffix (l suf : List Nat) : List Nat :=
  if suf.isSuffixOf l then l.take (l.length - suf.length) else l

/-- Source `noTrim`: the identity trim function. -/
def noTrim : TrimFunc := fun token => token

/-- Source `trimLeadingWhitespacesFunc`: `bytes.TrimLeft` with the nil
result normalised to an empty non-nil slice. -/
def trimLeadingWhitespacesFunc (data : GoBytes) : GoBytes :=
  match bytesTrimLeft data with
  | none => some []
  | some t => some t

/-- Source `trimTrailingWhitespacesFunc`: `bytes.TrimRight` with the nil
result normalised to an empty non-nil slice. -/
def trimTrailingWhitespacesFunc (data : GoBytes) : GoBytes :=
  match bytesTrimRight data with
  | none => some []
  | some t => some t

/-- Source `trimWhitespacesFunc`: strip both ends. -/
def trimWhitespacesFunc (data : GoBytes) : GoBytes :=
  trimLeadingWhitespacesFunc (trimTrailingWhitespacesFunc data)

/-- Source `getTrimFunc`: selects one of the four trim functions from the
two preserve-whitespace preferences. -/
def getTrimFunc (preserveLeadingWhitespaces preserveTrailingWhitespaces : Bool) : TrimFunc :=
  if preserveLeadingWhitespaces && preserveTrailingWhitespaces then noTrim
  else if preserveLeadingWhitespaces then trimTrailingWhitespacesFunc
  else if preserveTrailingWhitespaces then trimLeadingWhitespacesFunc
  else trimWhitespacesFunc

/-- Go `bytes.Index(l, pat)`: offset of the first occurrence of `pat` as a
contiguous sub-sequence of `l` (`some 0` for an empty `pat`). -/
def bytesIndex : List Nat → List Nat → Option Nat
  | [], pat => if pat = [] then some 0 else none
  | a :: t, pat =>
    if (a :: t).take pat.length = pat then some 0
    else (bytesIndex t pat).map (fun i => i + 1)

/-- The `FindIndex` capability of a compiled literal pattern. -/
def findLiteral (pat : List Nat) : Matcher :=
  fun l => (bytesIndex l pat).map (fun i => (i, i + pat.length))

/-- Source `LineStartSplitFunc`: tokens begin at a match of the pattern. -/
def LineStartSplitFunc (re : Matcher) (flushAtEOF : Bool) (trimFunc : TrimFunc)
    (data : List Nat) (atEOF : Bool) : SplitResult :=
  match re data with
  | none =>
    -- Flush if no more data is expected
    if data.length ≠ 0 ∧ atEOF = true ∧ flushAtEOF = true then
      ⟨data.length, trimFunc (some data), none⟩
    else ⟨0, none, none⟩ -- read more data and try again.
  | some (firstMatchStart, firstMatchEnd) =>
    -- token up to the first match, returned when it is not nil after trimming
    if firstMatchStart ≠ 0 ∧ trimFunc (some (data.take firstMatchStart)) ≠ none then
      ⟨firstMatchStart, trimFunc (some (data.take firstMatchStart)), none⟩
    else if firstMatchEnd = data.length then
      -- the first match goes to the end of the buffer
      ⟨0, none, none⟩
    else if atEOF = true ∧ flushAtEOF = true then
      -- Flush if no more data is expected
      ⟨data.length, trimFunc (some data), none⟩
    else
      match re (data.drop (firstMatchEnd + 1)) with
      | none => ⟨0, none, none⟩ -- read more data and try again
      | some (secondLocStart, _) =>
        ⟨secondLocStart + (firstMatchEnd + 1),
         trimFunc (some ((data.drop firstMatchStart).take
           (secondLocStart + (firstMatchEnd + 1) - firstMatchStart))),
         none⟩

/-- Source `LineEndSplitFunc`: tokens end at a match of the pattern. -/
def LineEndSplitFunc (re : Matcher) (flushAtEOF : Bool) (trimFunc : TrimFunc)
    (data : List Nat) (atEOF : Bool) : SplitResult :=
  match re data with
  | none =>
    -- Flush if no more data is expected
    if data.length ≠ 0 ∧ atEOF = true ∧ flushAtEOF = true then
      ⟨data.length, trimFunc (some data), none⟩
    else ⟨0, none, none⟩ -- read more data and try again
  | some (_, matchEnd) =>
    -- If the match goes up to the end of the current buffer, do another read
    if (matchEnd : Int) = (data.length : Int) - 1 ∧ atEOF = false then
      ⟨0, none, none⟩
    else
      ⟨matchEnd, trimFunc (some (data.take matchEnd)), none⟩

/-- Source `NewlineSplitFunc` closure: splits at the codec-resolved newline
sequence, stripping one trailing codec-resolved carriage return. -/
def NewlineSplitFunc (newline carriageReturn : List Nat) (flushAtEOF : Bool)
    (trimFunc : TrimFunc) (data : List Nat) (atEOF : Bool) : SplitResult :=
  if atEOF = true ∧ data.length = 0 then ⟨0, none, none⟩
  else
    match bytesIndex data newline with
    | some i =>
      -- We have a full newline-terminated line.
      ⟨i + newline.length,
       trimFunc (some (bytesTrimSuffix (data.take i) carriageReturn)), none⟩
    | none =>
      -- Flush if no more data is expected
      if atEOF = true ∧ flushAtEOF = true then
        ⟨data.length, trimFunc (some data), none⟩
      else ⟨0, none, none⟩ -- Request more data.

/-- Source `NoSplitFunc`: raw fixed-size chunking for the nop encoding. -/
def NoSplitFunc (maxLogSize : Nat) (data : List Nat) (atEOF : Bool) : SplitResult :=
  if data.length ≥ maxLogSize then ⟨maxLogSize, some (data.take maxLogSize), none⟩
  else if atEOF = false then ⟨0, none, none⟩
  else if data.length = 0 then ⟨0, none, none⟩
  else ⟨data.length, some data, none⟩

/-- A character-encoding codec, abstracted by the byte sequences its
encoder resolves for the logical newline and carriage-return characters.
`nop` is the distinguished `encoding.Nop` passthrough codec. -/
inductive Encoding where
  | nop
  | codec (newline : List Nat) (carriageReturn : List Nat)
deriving DecidableEq

/-- Source `encodedNewline`: the codec-resolved newline byte sequence
(`encoding.Nop` passes ASCII bytes through unchanged). -/
def encodedNewline : Encoding → Except String (List Nat)
  | .nop => .ok [10]
  | .codec nl _ => .ok nl

/-- Source `encodedCarriageReturn`: the codec-resolved carriage-return
byte sequence. -/
def encodedCarriageReturn : Encoding → Except String (List Nat)
  | .nop => .ok [13]
  | .codec _ cr => .ok cr

/-- Source `NewlineSplitFunc` builder: resolves the delimiter sequences and
closes over them. -/
def buildNewlineSplitFunc (enc : Encoding) (flushAtEOF : Bool)
    (trimFunc : TrimFunc) : Except String SplitFn :=
  match encodedNewline enc with
  | .error e => .error e
  | .ok nl =>
    match encodedCarriageReturn enc with
    | .error e => .error e
    | .ok cr => .ok (fun data atEOF => NewlineSplitFunc nl cr flushAtEOF trimFunc data atEOF)

/-- Source `MultilineConfig`. -/
structure MultilineConfig where
  LineStartPattern : String
  LineEndPattern : String
deriving DecidableEq

/-- Source `NewMultilineConfig`. -/
def NewMultilineConfig : MultilineConfig :=
  { LineStartPattern := "", LineEndPattern := "" }

def errMutuallyExclusive : String :=
  "only one of line_start_pattern or line_end_pattern can be set"

def errPatternWithNop : String :=
  "line_start_pattern or line_end_pattern should not be set when using nop encoding"

def errCompileLineEnd : String := "compile line end regex: "

def errCompileLineStart : String := "compile line start regex: "

def errUnreachable : String := "unreachable"

def multilineMarker : String := "(?m)"

/-- Source `MultilineConfig.getSplitFunc`: validates the configuration and
builds the boundary strategy.  `compile` abstracts `regexp.Compile`. -/
def getSplitFunc (compile : String → Except String Matcher) (c : MultilineConfig)
    (enc : Encoding) (flushAtEOF : Bool) (maxLogSize : Nat)
    (preserveLeadingWhitespaces preserveTrailingWhitespaces : Bool) :
    Except String SplitFn :=
  let endPat := c.LineEndPattern
  let startPat := c.LineStartPattern
  if endPat ≠ "" ∧ startPat ≠ "" then
    .error errMutuallyExclusive
  else if enc = Encoding.nop ∧ (endPat ≠ "" ∨ startPat ≠ "") then
    .error errPatternWithNop
  else if enc = Encoding.nop then
    .ok (fun data atEOF => NoSplitFunc maxLogSize data atEOF)
  else if endPat = "" ∧ startPat = "" then
    buildNewlineSplitFunc enc flushAtEOF
      (getTrimFunc preserveLeadingWhitespaces preserveTrailingWhitespaces)
  else if endPat ≠ "" then
    match compile (multilineMarker ++ endPat) with
    | .error e => .error (errCompileLineEnd ++ e)
    | .ok re =>
      .ok (fun data atEOF =>
        LineEndSplitFunc re flushAtEOF
          (getTrimFunc preserveLeadingWhitespaces preserveTrailingWhitespaces) data atEOF)
  else if startPat ≠ "" then
    match compile (multilineMarker ++ startPat) with
    | .error e => .error (errCompileLineStart ++ e)
    | .ok re =>
      .ok (fun data atEOF =>
        LineStartSplitFunc re flushAtEOF
          (getTrimFunc preserveLeadingWhitespaces preserveTrailingWhitespaces) data atEOF)
  else
    .error errUnreachable

/-- Whether a build attempt failed. -/
def isErr {α : Type} : Except String α → Bool
  | .error _ => true
  | .ok _ => false

/-! ### Helper lemmas -/

/-- A successful `bytesIndex` search returns a genuine in-bounds occurrence. -/
theorem bytesIndex_some :
    ∀ (l pat : List Nat) (i : Nat), bytesIndex l pat = some i →
      (l.drop i).take pat.length = pat ∧ i + pat.length ≤ l.length := by
  intro l
  induction l with
  | nil =>
    intro pat i h
    simp only [bytesIndex] at h
    split at h
    · next hp =>
      subst hp
      obtain rfl : (0 : Nat) = i := by injection h
      simp
    · exact absurd h (by simp)
  | cons a t ih =>
    intro pat i h
    simp only [bytesIndex] at h
    split at h
    · next hc =>
      obtain rfl : (0 : Nat) = i := by injection h
      refine ⟨by simpa using hc, ?_⟩
      have hl := congrArg List.length hc
      simp only [List.length_take, List.length_cons] at hl
      simp only [List.length_cons]
      omega
    · next hc =>
      rcases ho : bytesIndex t pat with _ | j
      · rw [ho] at h; simp at h
      · rw [ho] at h
        simp only [Option.map_some'] at h
        obtain rfl : j + 1 = i := by injection h
        obtain ⟨h1, h2⟩ := ih pat j ho
        refine ⟨by simpa [List.drop_succ_cons] using h1, ?_⟩
        simp only [List.length_cons]
        omega

/-- `bytesIndex` finds exactly the first occurrence: if `pat` occurs at `i`
and at no earlier offset, the search returns `i`. -/
theorem bytesIndex_of_first :
    ∀ (l pat : List Nat) (i : Nat),
      (l.drop i).take pat.length = pat →
      (∀ j, j < i → (l.drop j).take pat.length ≠ pat) →
      bytesIndex l pat = some i := by
  intro l
  induction l with
  | nil =>
    intro pat i hocc hmin
    have hp : pat = [] := by simpa using hocc.symm
    subst hp
    have hi : i = 0 := by
      by_contra hne
      exact hmin 0 (Nat.pos_of_ne_zero hne) (by simp)
    subst hi
    simp [bytesIndex]
  | cons a t ih =>
    intro pat i hocc hmin
    cases i with
    | zero =>
      simp only [List.drop_zero] at hocc
      simp [bytesIndex, hocc]
    | succ j =>
      have hne : ¬((a :: t).take pat.length = pat) := by
        have := hmin 0 (Nat.succ_pos j)
        simpa using this
      have hocc2 : (t.drop j).take pat.length = pat := by
        simpa [List.drop_succ_cons] using hocc
      have hmin2 : ∀ k, k < j → (t.drop k).take pat.length ≠ pat := by
        intro k hk
        have := hmin (k + 1) (by omega)
        simpa [List.drop_succ_cons] using this
      simp only [bytesIndex, if_neg hne]
      rw [ih pat j hocc2 hmin2]
      rfl

/-- The matcher of a literal pattern returns well-formed match bounds. -/
theorem findLiteral_bounds (pat l : List Nat) (s e : Nat)
    (h : findLiteral pat l = some (s, e)) : s ≤ e ∧ e ≤ l.length := by
  unfold findLiteral at h
  rcases ho : bytesIndex l pat with _ | i
  · rw [ho] at h; simp at h
  · rw [ho] at h
    simp only [Option.map_some', Option.some.injEq, Prod.mk.injEq] at h
    obtain ⟨h1, h2⟩ := h
    refine ⟨?_, ?_⟩
    · rw [← h1, ← h2]; exact Nat.le_add_right _ _
    · rw [← h2]; exact (bytesIndex_some l pat i ho).2

/-- `bytesTrimSuffix` always returns a prefix of its input. -/
theorem bytesTrimSuffix_take (l suf : List Nat) :
    ∃ k, bytesTrimSuffix l suf = l.take k := by
  unfold bytesTrimSuffix
  split
  · exact ⟨l.length - suf.length, rfl⟩
  · exact ⟨l.length, by simp⟩

/-! ### Claim theorems -/

/-- C1 (counterexample): on the buffer `"lineA;lineB;"` with end pattern
`";"` and default whitespace preferences, the first call's token is NOT
`"lineA"`: the emitted token keeps the terminating `";"`. -/
theorem lineEnd_semicolon_first_token_not_lineA :
    (LineEndSplitFunc (findLiteral [59]) false (getTrimFunc false false)
      [108, 105, 110, 101, 65, 59, 108, 105, 110, 101, 66, 59] false).token
      ≠ some [108, 105, 110, 101, 65] := by decide

/-- C1 (amended): on the buffer `"lineA;lineB;"` with end pattern `";"` and
default whitespace preferences, the first call yields the token `"lineA;"`
with advance 6 (past the terminating `";"`), and the next call on the
remaining buffer `"lineB;"` yields the token `"lineB;"` with advance 6. -/
theorem lineEnd_semicolon_tokens_keep_terminator :
    LineEndSplitFunc (findLiteral [59]) false (getTrimFunc false false)
      [108, 105, 110, 101, 65, 59, 108, 105, 110, 101, 66, 59] false
      = ⟨6, some [108, 105, 110, 101, 65, 59], none⟩ ∧
    LineEndSplitFunc (findLiteral [59]) false (getTrimFunc false false)
      [108, 105, 110, 101, 66, 59] false
      = ⟨6, some [108, 105, 110, 101, 66, 59], none⟩ := by decide

/-- C2 (code bug): on the buffer `" X"` with start pattern `"X"` (first
match at offset 1, whitespace-only prefix, default trimming), the
Pattern-Start strategy does NOT fall through: every trim function
normalises a nil slice to an empty non-nil slice, so the guard
`token != nil` is always true and the call consumes the prefix and emits
an empty token, contradicting the source comment
`return if non-matching pattern is not only whitespaces`. -/
theorem lineStart_whitespace_prefix_emits_empty_token :
    getTrimFunc false false (some [32]) = some [] ∧
    LineStartSplitFunc (findLiteral [88]) false (getTrimFunc false false)
      [32, 88] false = ⟨1, some [], none⟩ ∧
    (⟨1, some [], none⟩ : SplitResult) ≠ ⟨0, none, none⟩ := by decide

/-- C4 (code bug): on the buffer `"\tX"` with start pattern `"X"`, the
first match spans `[1, 2)` and extends exactly to the end of the buffer,
and only an empty (trimmed-to-empty) prefix token is produced; yet with
`atEnd = true` and flush-on-end enabled the call returns
`(1, empty token)` instead of `(0, no token, no error)`. -/
theorem lineStart_match_to_end_after_whitespace_prefix :
    findLiteral [88] [9, 88] = some (1, 2) ∧
    ([9, 88] : List Nat).length = 2 ∧
    LineStartSplitFunc (findLiteral [88]) true (getTrimFunc false false)
      [9, 88] true = ⟨1, some [], none⟩ ∧
    (⟨1, some [], none⟩ : SplitResult) ≠ ⟨0, none, none⟩ := by decide

/-- C3 (counterexample): the No-Split strategy does not apply the selected
trim function: with `maxLogSize = 2`, default whitespace preferences and
buffer `" a"`, the emitted token is the raw `" a"` while the selected trim
function maps the payload to `"a"`. -/
theorem noSplit_token_not_trimmed :
    (NoSplitFunc 2 [32, 97] true).token = some [32, 97] ∧
    getTrimFunc false false (some (([32, 97] : List Nat).take 2)) = some [97] ∧
    (some [32, 97] : GoBytes) ≠ some [97] := by decide

/-- C7 (counterexample): with maximum record size 0, an empty buffer at
`atEnd = true` takes the `len(data) >= maxLogSize` branch and emits an
empty (non-nil) token, not the claimed `(0, no token, no error)`. -/
theorem noSplit_zero_max_empty_buffer_emits_token :
    NoSplitFunc 0 [] true = ⟨0, some [], none⟩ ∧
    (⟨0, some [], none⟩ : SplitResult) ≠ ⟨0, none, none⟩ := by decide

/-- C9: at tokenize time no strategy ever fails: for every buffer and
`atEOF` flag, each of the four split functions returns an absent error,
for every matcher, trim function, resolved delimiter pair and maximum
record size. -/
theorem splitFuncs_never_error (re : Matcher) (flushAtEOF : Bool) (tf : TrimFunc)
    (nl cr : List Nat) (M : Nat) (data : List Nat) (atEOF : Bool) :
    (LineStartSplitFunc re flushAtEOF tf data atEOF).err = none ∧
    (LineEndSplitFunc re flushAtEOF tf data atEOF).err = none ∧
    (NewlineSplitFunc nl cr flushAtEOF tf data atEOF).err = none ∧
    (NoSplitFunc M data atEOF).err = none := by
  refine ⟨?_, ?_, ?_, ?_⟩
  · unfold LineStartSplitFunc
    repeat' split
    all_goals rfl
  · unfold LineEndSplitFunc
    repeat' split
    all_goals rfl
  · unfold NewlineSplitFunc
    repeat' split
    all_goals rfl
  · unfold NoSplitFunc
    repeat' split
    all_goals rfl

/-- C5: for any buffer on which the pattern matches with end offset `e`:
if `e = len(buffer) - 1` (as integers) and the stream has not ended, the
Pattern-End strategy requests more data; otherwise it emits the trimmed
token `buffer[0:e)` with `advance = e`. -/
theorem lineEnd_edge_and_emit (re : Matcher) (flushAtEOF : Bool) (tf : TrimFunc)
    (data : List Nat) (atEOF : Bool) (s e : Nat) (h : re data = some (s, e)) :
    ((e : Int) = (data.length : Int) - 1 ∧ atEOF = false →
      LineEndSplitFunc re flushAtEOF tf data atEOF = ⟨0, none, none⟩) ∧
    (¬((e : Int) = (data.length : Int) - 1 ∧ atEOF = false) →
      LineEndSplitFunc re flushAtEOF tf data atEOF
        = ⟨e, tf (some (data.take e)), none⟩) := by
  unfold LineEndSplitFunc
  rw [h]
  constructor
  · intro hc
    simp only [if_pos hc]
  · intro hc
    simp only [if_neg hc]

/-- C5 (witness): on the buffer `"a;"` with end pattern `";"`, the match
ends at offset 2 which is not `len - 1 = 1`, so the token `"a;"` is
emitted with advance 2. -/
theorem lineEnd_edge_and_emit_witness :
    LineEndSplitFunc (findLiteral [59]) false (getTrimFunc false false)
      [97, 59] false = ⟨2, some [97, 59], none⟩ := by
  have h := (lineEnd_edge_and_emit (findLiteral [59]) false (getTrimFunc false false)
    [97, 59] false 1 2 (by decide)).2 (by decide)
  exact h.trans (by decide)

/-- C6: for any buffer in which the (non-empty) codec-resolved newline
sequence first occurs at offset `i`, the Newline strategy returns
`advance = i + len(newline)` and the token is the selected trim function
applied to `buffer[0:i)` with one trailing codec-resolved carriage-return
sequence removed if present; and any call with `atEnd = true` and an
empty buffer returns `(0, no token, no error)`. -/
theorem newline_first_match_and_empty_end (nl cr : List Nat) (flushAtEOF : Bool)
    (tf : TrimFunc) (data : List Nat) (atEOF : Bool) (i : Nat)
    (hnl : nl ≠ [])
    (hocc : (data.drop i).take nl.length = nl)
    (hmin : ∀ j, j < i → (data.drop j).take nl.length ≠ nl) :
    NewlineSplitFunc nl cr flushAtEOF tf data atEOF
      = ⟨i + nl.length, tf (some (bytesTrimSuffix (data.take i) cr)), none⟩ ∧
    NewlineSplitFunc nl cr flushAtEOF tf [] true = ⟨0, none, none⟩ := by
  constructor
  · have hdata : data ≠ [] := by
      intro hd
      subst hd
      simp only [List.drop_nil, List.take_nil] at hocc
      exact hnl hocc.symm
    have hcond : ¬(atEOF = true ∧ data.length = 0) := by
      rintro ⟨-, hl⟩
      exact hdata (List.length_eq_zero.mp hl)
    have hidx := bytesIndex_of_first data nl i hocc hmin
    unfold NewlineSplitFunc
    rw [if_neg hcond, hidx]
  · unfold NewlineSplitFunc
    rw [if_pos ⟨rfl, rfl⟩]

/-- C6 (witness): the buffer `"a\r\nb"` with newline sequence `"\n"` and
carriage-return sequence `"\r"` (first newline at offset 2) yields
advance 3 and token `"a"` (carriage return stripped, then trimmed). -/
theorem newline_first_match_and_empty_end_witness :
    NewlineSplitFunc [10] [13] false (getTrimFunc false false)
      [97, 13, 10, 98] false = ⟨3, some [97], none⟩ ∧
    NewlineSplitFunc [10] [13] false (getTrimFunc false false) [] true
      = ⟨0, none, none⟩ := by
  have h := newline_first_match_and_empty_end [10] [13] false (getTrimFunc false false)
    [97, 13, 10, 98] false 2 (by decide) (by decide) (by decide)
  exact ⟨h.1.trans (by decide), h.2⟩

/-- C7 (amended): for the No-Split strategy with maximum record size `M`:
a buffer of length at least `M` yields exactly the first `M` bytes with
`advance = M` regardless of `atEnd`; a buffer shorter than `M` with
`atEnd = false` requests more data; a non-empty buffer shorter than `M`
with `atEnd = true` is emitted whole; and for `M ≥ 1` an empty buffer
with `atEnd = true` yields `(0, no token, no error)`. -/
theorem noSplit_cases (maxLogSize : Nat) (data : List Nat) (atEOF : Bool) :
    (data.length ≥ maxLogSize →
      NoSplitFunc maxLogSize data atEOF
        = ⟨maxLogSize, some (data.take maxLogSize), none⟩) ∧
    (data.length < maxLogSize ∧ atEOF = false →
      NoSplitFunc maxLogSize data atEOF = ⟨0, none, none⟩) ∧
    (0 < data.length ∧ data.length < maxLogSize ∧ atEOF = true →
      NoSplitFunc maxLogSize data atEOF = ⟨data.length, some data, none⟩) ∧
    (data = [] ∧ atEOF = true ∧ 0 < maxLogSize →
      NoSplitFunc maxLogSize data atEOF = ⟨0, none, none⟩) := by
  unfold NoSplitFunc
  refine ⟨?_, ?_, ?_, ?_⟩ <;> intro h
  · rw [if_pos h]
  · rw [if_neg (by omega), if_pos h.2]
  · rw [if_neg (by omega), if_neg (by simp [h.2.2]), if_neg (by omega)]
  · obtain ⟨rfl, hEof, hM⟩ := h
    rw [if_neg (by simp only [List.length_nil]; omega), if_neg (by simp [hEof])]
    simp

/-- C7 (witness): concrete instances of the four No-Split cases with
maximum record size 2. -/
theorem noSplit_cases_witness :
    NoSplitFunc 2 [97, 98, 99] false = ⟨2, some [97, 98], none⟩ ∧
    NoSplitFunc 2 [97] false = ⟨0, none, none⟩ ∧
    NoSplitFunc 2 [97] true = ⟨1, some [97], none⟩ ∧
    NoSplitFunc 2 [] true = ⟨0, none, none⟩ := by
  refine ⟨?_, ?_, ?_, ?_⟩
  · exact ((noSplit_cases 2 [97, 98, 99] false).1 (by decide)).trans (by decide)
  · exact (noSplit_cases 2 [97] false).2.1 (by decide)
  · exact ((noSplit_cases 2 [97] true).2.2.1 (by decide)).trans (by decide)
  · exact (noSplit_cases 2 [] true).2.2.2 (by decide)

/-- C8: building a multiline policy fails (returning an error and no
tokenizer) whenever both patterns are non-empty, and whenever either
pattern is non-empty while the codec is the nop/raw codec — for every
regex compiler, flush flag, maximum record size and whitespace
preferences, independent of any stream data. -/
theorem getSplitFunc_config_errors (compile : String → Except String Matcher)
    (c : MultilineConfig) (enc : Encoding) (flushAtEOF : Bool) (maxLogSize : Nat)
    (pl pt : Bool) :
    (c.LineStartPattern ≠ "" ∧ c.LineEndPattern ≠ "" →
      isErr (getSplitFunc compile c enc flushAtEOF maxLogSize pl pt) = true) ∧
    ((c.LineStartPattern ≠ "" ∨ c.LineEndPattern ≠ "") ∧ enc = Encoding.nop →
      isErr (getSplitFunc compile c enc flushAtEOF maxLogSize pl pt) = true) := by
  constructor
  · rintro ⟨h1, h2⟩
    unfold getSplitFunc
    rw [if_pos ⟨h2, h1⟩]
    rfl
  · rintro ⟨h1, h2⟩
    unfold getSplitFunc
    by_cases hb : c.LineEndPattern ≠ "" ∧ c.LineStartPattern ≠ ""
    · rw [if_pos hb]
      rfl
    · rw [if_neg hb, if_pos ⟨h2, h1.symm⟩]
      rfl

/-- C8 (witness): both configurations are rejected: start and end pattern
both set with a text codec, and a start pattern set with the nop codec. -/
theorem getSplitFunc_config_errors_witness :
    isErr (getSplitFunc (fun _ => .ok (fun _ => none))
      ⟨"a", "b"⟩ (Encoding.codec [10] [13]) false 10 false false) = true ∧
    isErr (getSplitFunc (fun _ => .ok (fun _ => none))
      ⟨"a", ""⟩ Encoding.nop false 10 false false) = true := by
  constructor
  · exact (getSplitFunc_config_errors (fun _ => .ok (fun _ => none))
      ⟨"a", "b"⟩ (Encoding.codec [10] [13]) false 10 false false).1 (by decide)
  · exact (getSplitFunc_config_errors (fun _ => .ok (fun _ => none))
      ⟨"a", ""⟩ Encoding.nop false 10 false false).2 (by decide)

/-- The token of a call is absent or produced by the given trim function
applied to a contiguous segment of the buffer. -/
def tokenViaTrim (tf : TrimFunc) (data : List Nat) (r : SplitResult) : Prop :=
  r.token = none ∨ ∃ a b, r.token = tf (some ((data.drop a).take b))

/-- The token of a call is absent or a raw (untrimmed) contiguous segment
of the buffer. -/
def tokenRawSlice (data : List Nat) (r : SplitResult) : Prop :=
  r.token = none ∨ ∃ a b, r.token = some ((data.drop a).take b)

/-- C3 (amended): for every preference pair, every token emitted by the
Pattern-Start, Pattern-End and Newline strategies is the selected trim
function applied to a contiguous segment of the buffer, while the
No-Split strategy emits raw segments without applying the trim
function. -/
theorem tokens_through_trim (pl pt : Bool) (re : Matcher) (flushAtEOF : Bool)
    (nl cr : List Nat) (M : Nat) (data : List Nat) (atEOF : Bool) :
    tokenViaTrim (getTrimFunc pl pt) data
      (LineStartSplitFunc re flushAtEOF (getTrimFunc pl pt) data atEOF) ∧
    tokenViaTrim (getTrimFunc pl pt) data
      (LineEndSplitFunc re flushAtEOF (getTrimFunc pl pt) data atEOF) ∧
    tokenViaTrim (getTrimFunc pl pt) data
      (NewlineSplitFunc nl cr flushAtEOF (getTrimFunc pl pt) data atEOF) ∧
    tokenRawSlice data (NoSplitFunc M data atEOF) := by
  refine ⟨?_, ?_, ?_, ?_⟩
  · unfold tokenViaTrim LineStartSplitFunc
    rcases hre : re data with _ | ⟨fs, fe⟩
    · simp only []
      split
      · exact Or.inr ⟨0, data.length, by simp⟩
      · exact Or.inl rfl
    · simp only []
      split
      · exact Or.inr ⟨0, fs, rfl⟩
      · split
        · exact Or.inl rfl
        · split
          · exact Or.inr ⟨0, data.length, by simp⟩
          · rcases hre2 : re (data.drop (fe + 1)) with _ | ⟨ss, se⟩
            · exact Or.inl rfl
            · exact Or.inr ⟨fs, ss + (fe + 1) - fs, rfl⟩
  · unfold tokenViaTrim LineEndSplitFunc
    rcases hre : re data with _ | ⟨ms, me⟩
    · simp only []
      split
      · exact Or.inr ⟨0, data.length, by simp⟩
      · exact Or.inl rfl
    · simp only []
      split
      · exact Or.inl rfl
      · exact Or.inr ⟨0, me, rfl⟩
  · unfold tokenViaTrim NewlineSplitFunc
    split
    · exact Or.inl rfl
    · rcases hi : bytesIndex data nl with _ | i
      · simp only []
        split
        · exact Or.inr ⟨0, data.length, by simp⟩
        · exact Or.inl rfl
      · obtain ⟨k, hk⟩ := bytesTrimSuffix_take (data.take i) cr
        exact Or.inr ⟨0, min k i, by simp [hk, List.take_take]⟩
  · unfold tokenRawSlice NoSplitFunc
    split
    · exact Or.inr ⟨0, M, by simp⟩
    · split
      · exact Or.inl rfl
      · split
        · exact Or.inl rfl
        · exact Or.inr ⟨0, data.length, by simp⟩

/-- C10: for every strategy call, the returned advance never exceeds the
length of the presented buffer (and is a natural number, hence
non-negative), provided the matcher returns in-bounds matches. -/
theorem advance_le_buffer_length (re : Matcher)
    (hre : ∀ l s e, re l = some (s, e) → s ≤ e ∧ e ≤ l.length)
    (flushAtEOF : Bool) (tf : TrimFunc) (nl cr : List Nat) (M : Nat)
    (data : List Nat) (atEOF : Bool) :
    (LineStartSplitFunc re flushAtEOF tf data atEOF).advance ≤ data.length ∧
    (LineEndSplitFunc re flushAtEOF tf data atEOF).advance ≤ data.length ∧
    (NewlineSplitFunc nl cr flushAtEOF tf data atEOF).advance ≤ data.length ∧
    (NoSplitFunc M data atEOF).advance ≤ data.length := by
  refine ⟨?_, ?_, ?_, ?_⟩
  · unfold LineStartSplitFunc
    rcases hre1 : re data with _ | ⟨fs, fe⟩
    · simp only []
      split
      · exact le_refl _
      · exact Nat.zero_le _
    · obtain ⟨hb1, hb2⟩ := hre data fs fe hre1
      simp only []
      split
      · exact le_trans hb1 hb2
      · split
        · exact Nat.zero_le _
        · next hne =>
          split
          · exact le_refl _
          · rcases hre2 : re (data.drop (fe + 1)) with _ | ⟨ss, se⟩
            · exact Nat.zero_le _
            · obtain ⟨hc1, hc2⟩ := hre _ ss se hre2
              rw [List.length_drop] at hc2
              show ss + (fe + 1) ≤ data.length
              omega
  · unfold LineEndSplitFunc
    rcases hre1 : re data with _ | ⟨ms, me⟩
    · simp only []
      split
      · exact le_refl _
      · exact Nat.zero_le _
    · obtain ⟨hb1, hb2⟩ := hre data ms me hre1
      simp only []
      split
      · exact Nat.zero_le _
      · exact hb2
  · unfold NewlineSplitFunc
    split
    · exact Nat.zero_le _
    · rcases hi : bytesIndex data nl with _ | i
      · simp only []
        split
        · exact le_refl _
        · exact Nat.zero_le _
      · exact (bytesIndex_some data nl i hi).2
  · unfold NoSplitFunc
    split
    · next hge => exact hge
    · split
      · exact Nat.zero_le _
      · split
        · exact Nat.zero_le _
        · exact le_refl _

/-- C10 (witness): concrete bound checks for the four strategies on a
three-byte buffer, using the literal `";"` matcher. -/
theorem advance_le_buffer_length_witness :
    (LineStartSplitFunc (findLiteral [59]) true (getTrimFunc false false)
      [97, 59, 98] true).advance ≤ 3 ∧
    (LineEndSplitFunc (findLiteral [59]) true (getTrimFunc false false)
      [97, 59, 98] true).advance ≤ 3 ∧
    (NewlineSplitFunc [10] [13] true (getTrimFunc false false)
      [97, 59, 98] true).advance ≤ 3 ∧
    (NoSplitFunc 2 [97, 59, 98] true).advance ≤ 3 := by
  exact advance_le_buffer_length (findLiteral [59])
    (fun l s e h => findLiteral_bounds [59] l s e h)
    true (getTrimFunc false false) [10] [13] 2 [97, 59, 98] true
